import Mathlib

/-!
Verification of the color-extract repository against its specification.

The repository ships only the visualization module, two example scripts and
packaging glue; the extraction engine itself (`extract_colors`,
`normalize_image_array`, `rgb_to_hex`, the extractor family, the statistics
collector and the sorter) is absent from the sources, so those components are
modelled here from the specification text (each such definition carries a
doc comment starting with "Modelled from the spec:").  The visualization
module and the TouchDesigner example, which are present in the sources, are
embedded from the code itself.
-/

namespace ColorExtract

/-- An RGB color triple; each component is an integer channel value
(8-bit, 0–255, after preprocessing).  Spec §3 (Color). -/
structure Color where
  r : ℕ
  g : ℕ
  b : ℕ
deriving DecidableEq, Repr

/-- A pixel buffer: a rows × cols grid of RGB triples.  Spec §3 (PixelBuffer). -/
abbrev PixelBuffer := List (List Color)

/-- Modelled from the spec: the engine's error kinds (spec §7). -/
inductive ExtractError where
  | configurationError : String → ExtractError
  | invalidShapeError : ExtractError
  | invalidRangeError : ExtractError
  | missingStatsError : ExtractError
  | invalidColorError : ExtractError
deriving DecidableEq, Repr

/-- Modelled from the spec: the closed enum of extraction methods (spec §3,
ExtractionConfig). -/
inductive Method where
  | kmeans
  | aggressive
  | vibrant
  | lab
  | multistage
deriving DecidableEq, Repr

/-- Modelled from the spec: the closed enum of sort keys (spec §3 and §4.5). -/
inductive SortKey where
  | spatialX
  | spatialY
  | frequency
  | none
deriving DecidableEq, Repr

/-- Modelled from the spec: mapping of a requested method name onto the closed
method enum; any other name is invalid (spec §3, §7, scenario §8). -/
def parseMethod : String → Option Method
  | "kmeans" => some .kmeans
  | "aggressive" => some .aggressive
  | "vibrant" => some .vibrant
  | "lab" => some .lab
  | "multistage" => some .multistage
  | _ => Option.none

/-- Modelled from the spec: mapping of a requested sort key name onto the
closed sort-key enum (spec §4.5). -/
def parseSortKey : String → Option SortKey
  | "spatial-x" => some .spatialX
  | "spatial-y" => some .spatialY
  | "frequency" => some .frequency
  | "none" => some .none
  | _ => Option.none

/-- Clamp an integer channel value into [0, 255] (spec §4.6). -/
def clamp255 (x : ℤ) : ℕ := (min 255 (max 0 x)).toNat

/-- The two hexadecimal digits of a byte, lowercase, zero-padded. -/
def hexByte (n : ℕ) : List Char :=
  [Nat.digitChar (n / 16), Nat.digitChar (n % 16)]

/-- Modelled from the spec: `rgb_to_hex(color) -> "#RRGGBB"`, zero-padded,
each component clamped to [0,255] before formatting (spec §4.6); lowercase
hex digits are the documented convention of this model. -/
def rgb_to_hex (r g b : ℤ) : String :=
  String.mk ('#' :: (hexByte (clamp255 r) ++ hexByte (clamp255 g) ++ hexByte (clamp255 b)))

/-- Clamp a rational value into [lo, hi]. -/
def clampQ (lo hi v : ℚ) : ℚ := min hi (max lo v)

/-- Modelled from the spec: the per-value linear affine remap from a declared
input range to a declared output range, with the result clamped into the
output range (spec §4.1). -/
def normalizeValue (inR outR : ℚ × ℚ) (v : ℚ) : ℚ :=
  clampQ outR.1 outR.2 (outR.1 + (v - inR.1) / (inR.2 - inR.1) * (outR.2 - outR.1))

/-- Modelled from the spec: `normalize_image_array(pixels, input_range,
output_range)`, the elementwise affine range remap over a pixel array (the
array is represented by its flattened list of channel values); fails with
`InvalidRangeError` when `input_min >= input_max` (spec §4.1, §6). -/
def normalize_image_array (pixels : List ℚ) (input_range output_range : ℚ × ℚ) :
    Except ExtractError (List ℚ) :=
  if input_range.2 ≤ input_range.1 then .error .invalidRangeError
  else .ok (pixels.map (normalizeValue input_range output_range))

/-- Round a rational to one decimal place (spec §4.4: percentages are rounded
to one decimal). -/
def round1 (q : ℚ) : ℚ := (round (q * 10) : ℤ) / 10

/-- HSV saturation of a color, in [0,1] (spec §3, §4.4). -/
def hsvSaturation (c : Color) : ℚ :=
  let mx : ℕ := max c.r (max c.g c.b)
  let mn : ℕ := min c.r (min c.g c.b)
  if mx = 0 then 0 else ((mx : ℚ) - (mn : ℚ)) / (mx : ℚ)

/-- HSV value of a color, in [0,1]. -/
def hsvValue (c : Color) : ℚ := ((max c.r (max c.g c.b) : ℕ) : ℚ) / 255

/-- Squared Euclidean distance between two colors in RGB space. -/
def rgbDist2 (c d : Color) : ℤ :=
  ((c.r : ℤ) - (d.r : ℤ)) ^ 2 + ((c.g : ℤ) - (d.g : ℤ)) ^ 2 + ((c.b : ℤ) - (d.b : ℤ)) ^ 2

/-- Integer cube root: the largest `k` with `k ^ 3 ≤ n`. -/
def icbrt (n : ℕ) : ℕ :=
  ((List.range (n + 1)).filter (fun k => k ^ 3 ≤ n)).foldl max 0

/-- Modelled from the spec: the RGB→LAB transform of the Color Space Converter
(spec §4.2).  The spec fixes sRGB gamma and the D65 white point but leaves the
numeric precision to the implementation; this model uses a documented
fixed-point approximation: gamma approximated by squaring, the linear-RGB→XYZ
D65 matrix scaled by 10⁴, and the cube-root branch of the LAB transfer
function computed with an integer cube root on scaled values. -/
def rgbToLab (c : Color) : ℤ × ℤ × ℤ :=
  let rl := c.r * c.r
  let gl := c.g * c.g
  let bl := c.b * c.b
  let x := 4124 * rl + 3576 * gl + 1805 * bl
  let y := 2126 * rl + 7152 * gl + 722 * bl
  let z := 1193 * rl + 1192 * gl + 9505 * bl
  let fx := icbrt (x * 100)
  let fy := icbrt (y * 100)
  let fz := icbrt (z * 100)
  (116 * (fy : ℤ) - 16000, 500 * ((fx : ℤ) - (fy : ℤ)), 200 * ((fy : ℤ) - (fz : ℤ)))

/-- Squared Euclidean distance between two colors in the (approximated) LAB
space (spec §4.2, §4.3: perceptually-weighted distance). -/
def labDist2 (c d : Color) : ℤ :=
  let lc := rgbToLab c
  let ld := rgbToLab d
  (lc.1 - ld.1) ^ 2 + (lc.2.1 - ld.2.1) ^ 2 + (lc.2.2 - ld.2.2) ^ 2

/-- Index (into `cs`) of the color nearest to `p` under the distance `dist`;
ties resolve to the earliest index, and the result is `0` on an empty list. -/
def nearestIndex (dist : Color → Color → ℤ) (cs : List Color) (p : Color) : ℕ :=
  match cs.enum.argmin (fun ic => dist ic.2 p) with
  | some ic => ic.1
  | Option.none => 0

/-- Add one occurrence of color `c` to an association list of (color, count)
pairs kept in first-occurrence order. -/
def bumpColor (acc : List (Color × ℕ)) (c : Color) : List (Color × ℕ) :=
  match acc with
  | [] => [(c, 1)]
  | (d, k) :: t => if d = c then (d, k + 1) :: t else (d, k) :: bumpColor t c

/-- Occurrence counts of the distinct colors of a pixel list, keyed in
first-occurrence order. -/
def colorCounts (ps : List Color) : List (Color × ℕ) :=
  ps.foldl bumpColor []

/-- The relation "ordered by ascending key" used by the stable sorts. -/
def leKey {α : Type} {β : Type} [LinearOrder β] (f : α → β) : α → α → Prop :=
  fun x y => f x ≤ f y

instance leKey.instDecidableRel {α : Type} {β : Type} [LinearOrder β] (f : α → β) :
    DecidableRel (leKey f) :=
  fun x y => inferInstanceAs (Decidable (f x ≤ f y))

instance leKey.instIsTotal {α : Type} {β : Type} [LinearOrder β] (f : α → β) :
    IsTotal α (leKey f) :=
  ⟨fun x y => le_total (f x) (f y)⟩

instance leKey.instIsTrans {α : Type} {β : Type} [LinearOrder β] (f : α → β) :
    IsTrans α (leKey f) :=
  ⟨fun _ _ _ h1 h2 => le_trans h1 h2⟩

/-- The relation "ordered by descending key" used by the stable sorts. -/
def geKey {α : Type} {β : Type} [LinearOrder β] (f : α → β) : α → α → Prop :=
  fun x y => f y ≤ f x

instance geKey.instDecidableRel {α : Type} {β : Type} [LinearOrder β] (f : α → β) :
    DecidableRel (geKey f) :=
  fun x y => inferInstanceAs (Decidable (f y ≤ f x))

instance geKey.instIsTotal {α : Type} {β : Type} [LinearOrder β] (f : α → β) :
    IsTotal α (geKey f) :=
  ⟨fun x y => le_total (f y) (f x)⟩

instance geKey.instIsTrans {α : Type} {β : Type} [LinearOrder β] (f : α → β) :
    IsTrans α (geKey f) :=
  ⟨fun _ _ _ h1 h2 => le_trans h2 h1⟩

/-- The distinct colors of a pixel list ordered by descending occurrence
count, ties keeping first-occurrence order (stable sort). -/
def distinctByCount (ps : List Color) : List Color :=
  (List.insertionSort (geKey Prod.snd) (colorCounts ps)).map Prod.fst

/-- The `n` most frequent distinct colors of a pixel list. -/
def topColorsByCount (ps : List Color) (n : ℕ) : List Color :=
  (distinctByCount ps).take n

/-- Componentwise mean color of a pixel list (integer division; the zero
color for an empty list). -/
def meanColor (ps : List Color) : Color :=
  { r := (ps.map Color.r).sum / ps.length
    g := (ps.map Color.g).sum / ps.length
    b := (ps.map Color.b).sum / ps.length }

/-- One Lloyd iteration of k-means (spec §4.3, kmeans): every pixel is
assigned to its nearest centroid and each centroid moves to the mean of its
assigned pixels (an empty cluster keeps its centroid). -/
def lloydStep (dist : Color → Color → ℤ) (ps : List Color) (cs : List Color) : List Color :=
  cs.enum.map (fun ic =>
    let assigned := ps.filter (fun p => nearestIndex dist cs p == ic.1)
    if assigned.isEmpty then ic.2 else meanColor assigned)

/-- Centroids reordered by descending assigned-pixel count (spec §4.3:
"ordered by descending assigned-pixel count"); the sort is stable. -/
def orderByAssigned (dist : Color → Color → ℤ) (ps : List Color) (cs : List Color) :
    List Color :=
  (List.insertionSort (geKey Prod.snd)
    (cs.enum.map (fun ic =>
      (ic.2, (ps.filter (fun p => nearestIndex dist cs p == ic.1)).length)))).map Prod.fst

/-- Modelled from the spec: the fixed iteration cap that makes k-means always
terminate (spec §4.3: "a maximum iteration cap"). -/
def kmeansIterations : ℕ := 10

/-- Modelled from the spec: k-means clustering (spec §4.3).  Deterministic
initialization (the documented seed of this model: the `n` most frequent
distinct colors), a fixed Lloyd-iteration cap, and output centroids ordered
by descending assigned-pixel count. -/
def kmeansCore (dist : Color → Color → ℤ) (ps : List Color) (n : ℕ) : List Color :=
  orderByAssigned dist ps ((lloydStep dist ps)^[kmeansIterations] (topColorsByCount ps n))

/-- Coarse 3-bit-per-channel quantization (spec §4.3, aggressive; the bin
width 32 is the documented default of this model). -/
def quantizeColor (c : Color) : Color :=
  { r := c.r / 32, g := c.g / 32, b := c.b / 32 }

/-- Modelled from the spec: the kmeans extractor (spec §4.3). -/
def kmeansExtract (ps : List Color) (n : ℕ) : List Color :=
  kmeansCore rgbDist2 ps n

/-- Modelled from the spec: the aggressive extractor (spec §4.3): quantize
each channel to a reduced bit depth, count frequency per bin, and return the
`n` most frequent bins' representative colors (the mean of each bin's
members). -/
def aggressiveExtract (ps : List Color) (n : ℕ) : List Color :=
  ((List.insertionSort (geKey Prod.snd) (colorCounts (ps.map quantizeColor))).take n).map
    (fun bin => meanColor (ps.filter (fun p => quantizeColor p == bin.1)))

/-- Modelled from the spec: the vibrant extractor's saturation threshold
(spec §9 leaves it open; 0.15 is the documented default of this model). -/
def vibrantSatMin : ℚ := 3 / 20

/-- Modelled from the spec: the vibrant extractor's value threshold
(documented default of this model). -/
def vibrantValMin : ℚ := 1 / 5

/-- The pixels that pass the vibrant extractor's saturation and value
thresholds. -/
def vibrantPixels (ps : List Color) : List Color :=
  ps.filter (fun p =>
    decide (vibrantSatMin ≤ hsvSaturation p) && decide (vibrantValMin ≤ hsvValue p))

/-- Modelled from the spec: the vibrant extractor (spec §4.3): filter pixels
by HSV saturation and value before clustering, falling back to unweighted
clustering when too few pixels pass the threshold. -/
def vibrantExtract (ps : List Color) (n : ℕ) : List Color :=
  if (colorCounts (vibrantPixels ps)).length < n then kmeansCore rgbDist2 ps n
  else kmeansCore rgbDist2 (vibrantPixels ps) n

/-- Modelled from the spec: the lab extractor (spec §4.3): clustering driven
by perceptual (LAB-space) distance instead of raw RGB distance. -/
def labExtract (ps : List Color) (n : ℕ) : List Color :=
  kmeansCore labDist2 ps n

/-- Modelled from the spec: the multistage extractor (spec §4.3): coarse
quantization first prunes the candidate pixel population (each pixel is
replaced by its bin's representative), then LAB-space refinement runs on the
reduced set. -/
def multistageExtract (ps : List Color) (n : ℕ) : List Color :=
  kmeansCore labDist2
    (ps.map (fun p => meanColor (ps.filter (fun q => quantizeColor q == quantizeColor p)))) n

/-- Modelled from the spec: dispatch to the extractor selected by the
configuration (spec §4.3, §9), with the shared edge case of all extractors:
when the image has no more distinct colors than requested, exactly the
distinct colors available are returned, with no duplicate or synthetic
padding (spec §4.3, §3 ExtractionResult). -/
def runExtractor (m : Method) (ps : List Color) (n : ℕ) : List Color :=
  if (colorCounts ps).length ≤ n then distinctByCount ps
  else
    match m with
    | .kmeans => kmeansExtract ps n
    | .aggressive => aggressiveExtract ps n
    | .vibrant => vibrantExtract ps n
    | .lab => labExtract ps n
    | .multistage => multistageExtract ps n

/-- Modelled from the spec: one per-color statistics record (spec §3,
ColorStat). -/
structure ColorStat where
  hex : String
  percentage : ℚ
  saturation : ℚ
  spatialX : ℚ
  spatialY : ℚ
deriving DecidableEq, Repr

/-- All pixels of a buffer in row-major order. -/
def allPixels (buf : PixelBuffer) : List Color := buf.flatten

/-- All pixels of a buffer with their (x, y) coordinates, row-major. -/
def pixelPoints (buf : PixelBuffer) : List (ℕ × ℕ × Color) :=
  (buf.enum.map (fun yrow => yrow.2.enum.map (fun xc => (xc.1, yrow.1, xc.2)))).flatten

/-- Width of a buffer (length of its first row). -/
def bufWidth (buf : PixelBuffer) : ℕ := (buf.headD []).length

/-- Height of a buffer (number of rows). -/
def bufHeight (buf : PixelBuffer) : ℕ := buf.length

/-- Modelled from the spec: the distance metric the statistics collector
shares with the extractor that produced the colors (spec §4.4: "by the same
distance metric used during extraction"). -/
def statDist (m : Method) : Color → Color → ℤ :=
  match m with
  | .lab => labDist2
  | .multistage => labDist2
  | _ => rgbDist2

/-- The pixels (with coordinates) assigned to extracted color `i`: those whose
nearest color among `colors` (under `dist`) is the one at index `i`. -/
def assignedPts (dist : Color → Color → ℤ) (buf : PixelBuffer) (colors : List Color)
    (i : ℕ) : List (ℕ × ℕ × Color) :=
  (pixelPoints buf).filter (fun p => nearestIndex dist colors p.2.2 == i)

/-- Modelled from the spec: the Statistics Collector (spec §4.4): every pixel
is assigned to its nearest extracted color; percentage = assigned count /
total count × 100 rounded to one decimal; saturation is the HSV saturation of
the color; spatial-x and spatial-y are the mean normalized coordinates (pixel
centers, normalized by width resp. height) of the assigned pixels. -/
def collectStats (dist : Color → Color → ℤ) (buf : PixelBuffer) (colors : List Color) :
    List ColorStat :=
  colors.enum.map (fun ic =>
    { hex := rgb_to_hex (ic.2.r : ℤ) (ic.2.g : ℤ) (ic.2.b : ℤ)
      percentage := round1 (((assignedPts dist buf colors ic.1).length : ℚ) * 100 /
        ((pixelPoints buf).length : ℚ))
      saturation := hsvSaturation ic.2
      spatialX := if (assignedPts dist buf colors ic.1).length = 0 then 0
        else ((assignedPts dist buf colors ic.1).map
            (fun p => ((p.1 : ℚ) + 1 / 2) / (bufWidth buf : ℚ))).sum /
          ((assignedPts dist buf colors ic.1).length : ℚ)
      spatialY := if (assignedPts dist buf colors ic.1).length = 0 then 0
        else ((assignedPts dist buf colors ic.1).map
            (fun p => ((p.2.1 : ℚ) + 1 / 2) / (bufHeight buf : ℚ))).sum /
          ((assignedPts dist buf colors ic.1).length : ℚ) })

/-- Modelled from the spec: the Sorter (spec §4.5): reorder the parallel
(color, stat) pairs by the requested key with a stable sort; `none` preserves
the extractor-native order exactly. -/
def sortColors (key : SortKey) (colors : List Color) (stats : List ColorStat) :
    List Color × List ColorStat :=
  match key with
  | .none => (colors, stats)
  | .spatialX =>
      (List.insertionSort (leKey (fun p : Color × ColorStat => p.2.spatialX))
        (colors.zip stats)).unzip
  | .spatialY =>
      (List.insertionSort (leKey (fun p : Color × ColorStat => p.2.spatialY))
        (colors.zip stats)).unzip
  | .frequency =>
      (List.insertionSort (geKey (fun p : Color × ColorStat => p.2.percentage))
        (colors.zip stats)).unzip

/-- Modelled from the spec: `extract_colors` (spec §6, §4): validate the
configuration before dispatch (unknown method name, unknown sort key or a
non-positive `n_colors` is a `ConfigurationError`, spec §3, §7), run the
selected extractor, collect statistics when requested, and sort; a non-`none`
sort key without statistics is a `MissingStatsError` (spec §4.5). -/
def extract_colors (buf : PixelBuffer) (method : String) (n_colors : ℤ)
    (sort_by : String) (return_stats : Bool) :
    Except ExtractError (List Color × Option (List ColorStat)) :=
  match parseMethod method with
  | Option.none => .error (.configurationError ("Unknown method: " ++ method))
  | some m =>
    match parseSortKey sort_by with
    | Option.none => .error (.configurationError ("Unknown sort key: " ++ sort_by))
    | some key =>
      if n_colors ≤ 0 then
        .error (.configurationError "n_colors must be a positive integer")
      else
        let colors := runExtractor m (allPixels buf) n_colors.toNat
        if return_stats then
          let stats := collectStats (statDist m) buf colors
          let sorted := sortColors key colors stats
          .ok (sorted.1, some sorted.2)
        else
          match key with
          | .none => .ok (colors, Option.none)
          | _ => .error .missingStatsError

/-- A Python runtime error, as far as the embedded code can raise one. -/
inductive PyError where
  | nameError : String → PyError
  | zeroDivisionError : PyError
  | extractError : ExtractError → PyError
deriving DecidableEq, Repr

/-- Python's division: dividing by zero raises `ZeroDivisionError` instead of
returning a value. -/
def pyDiv (a b : ℚ) : Except PyError ℚ :=
  if b = 0 then .error .zeroDivisionError else .ok (a / b)

/-- The names bound at module level of `color_extract/visualization.py`:
the from-imports of lines 5–8 (`Console`, `Panel`, `Table`, `box`), the
imports of lines 10–13 (`os`, `np`, `Image`, `ImageDraw`, `ImageFont`,
`rgb_to_hex`) and the module's four function definitions.  Neither `plt`
nor `Rectangle` is among them. -/
def visualizationGlobals : List String :=
  ["Console", "Panel", "Table", "box", "os", "np", "Image", "ImageDraw",
   "ImageFont", "rgb_to_hex", "plot_single_result", "plot_comparison",
   "print_color_results", "create_color_palette_image"]

/-- Evaluation of a global name reference in a module namespace: an unbound
name raises `NameError`. -/
def lookupGlobal (globals : List String) (name : String) : Except PyError Unit :=
  if name ∈ globals then .ok () else .error (.nameError name)

/-- The inputs of `plot_comparison` (visualization.py line 135): the original
image (represented by its pixel size, the only attribute the function reads),
the method-name → colors dictionary, and the dpi. -/
structure PlotComparisonArgs where
  imgWidthPx : ℕ
  imgHeightPx : ℕ
  algorithms : List (String × List Color)
  dpi : ℕ

/-- Embedding of `plot_comparison` (visualization.py lines 135–205).  Lines
153–154 divide the pixel dimensions by `dpi` (Python division, which raises
`ZeroDivisionError` when `dpi` is zero); lines 156–161 are non-failing
arithmetic on the arguments; line 163 (`fig = plt.figure(...)`) is the first
statement that resolves the global name `plt`, and line 191 inside the swatch
loop resolves `Rectangle`; both lookups go through the module namespace
`visualizationGlobals`.  The returned figure is represented by its
(width, height) in inches. -/
def plot_comparison (args : PlotComparisonArgs) : Except PyError (ℚ × ℚ) := do
  let imgWidthIn ← pyDiv (args.imgWidthPx : ℚ) (args.dpi : ℚ)
  let imgHeightIn ← pyDiv (args.imgHeightPx : ℚ) (args.dpi : ℚ)
  let nMethods : ℕ := args.algorithms.length
  let figWidth : ℚ := imgWidthIn
  let figHeight : ℚ := imgHeightIn + (nMethods : ℚ) * 2 + 1
  let _ ← lookupGlobal visualizationGlobals "plt"
  let _ ← (args.algorithms.flatMap Prod.snd).foldlM
    (fun _ _ => lookupGlobal visualizationGlobals "Rectangle") ()
  pure (figWidth * (86 / 100), figHeight)

/-- The observable inputs `ColorExtractorExt.Extract` reads from a
TouchDesigner TOP: its path and cook count (used for the cache key) and its
pixel array (`numpyArray` returns a 0–1 float array; `shape` is the numpy
shape, `values` the row-major channel values). -/
structure TopInput where
  path : String
  totalCooks : ℕ
  shape : List ℕ
  values : List ℚ

/-- The extension state `Extract` reads (touchdesigner_integration.py
`__init__`, lines 23–34): the configured method, color count, sort key, the
downscale bound and the result cache. -/
structure ExtState where
  method : String
  n_colors : ℕ
  sort_by : String
  max_dimension : ℕ
  cache : List (String × List String)

/-- The cache key of `Extract` (line 81):
`f"{input_top.path}_{input_top.totalCooks}_{self.method}_{self.n_colors}"`. -/
def cacheKey (top : TopInput) (st : ExtState) : String :=
  top.path ++ "_" ++ toString top.totalCooks ++ "_" ++ st.method ++ "_" ++
    toString st.n_colors

/-- Dictionary lookup in the cache. -/
def lookupCache (cache : List (String × List String)) (k : String) :
    Option (List String) :=
  (cache.find? (fun e => e.1 == k)).map Prod.snd

/-- Group a flat channel-value list into colors, three channels per pixel
(rounding each 0–255 float channel to its nearest integer and clamping, the
uint8 canonicalization of spec §4.1). -/
def groupTriples : List ℚ → List Color
  | r :: g :: b :: rest =>
      { r := clamp255 (round r), g := clamp255 (round g), b := clamp255 (round b) } ::
        groupTriples rest
  | _ => []

/-- Split a list into consecutive chunks of length `w`. -/
def chunkList {α : Type} (w : ℕ) (l : List α) : List (List α) :=
  if h : w = 0 then []
  else
    match l with
    | [] => []
    | a :: rest => ((a :: rest).take w) :: chunkList w ((a :: rest).drop w)
termination_by l.length
decreasing_by
  have hw : 0 < w := Nat.pos_of_ne_zero h
  simp [List.length_drop]
  omega

/-- Embedding of the tail of `Extract` (touchdesigner_integration.py lines
97–134) for an RGB array: convert from 0–1 to 0–255 range through
`color_extractor.normalize_image_array` (lines 98–102), build the pixel
buffer, call `color_extractor.extract_colors` with `return_stats=True`
(lines 117–123) and convert the colors to hex (line 126).  The Lanczos
downscaling branch (lines 104–114) is resampling of an external image
library and is not modelled; extraction proceeds on the full-size buffer. -/
def tdExtractRest (st : ExtState) (top : TopInput) :
    Except PyError (List String) := do
  let w := top.shape.getD 1 0
  let c := top.shape.getD 2 3
  let vals255 ←
    match normalize_image_array top.values (0, 1) (0, 255) with
    | .error e => Except.error (PyError.extractError e)
    | .ok v => pure v
  let pixelList := (chunkList c vals255).map (fun px => (groupTriples (px.take 3)).headD
    { r := 0, g := 0, b := 0 })
  let buf : PixelBuffer := chunkList w pixelList
  match extract_colors buf st.method (st.n_colors : ℤ) st.sort_by true with
  | .error e => Except.error (PyError.extractError e)
  | .ok res =>
      pure (res.1.map (fun col => rgb_to_hex (col.r : ℤ) (col.g : ℤ) (col.b : ℤ)))

/-- Embedding of `ColorExtractorExt.Extract` (touchdesigner_integration.py
lines 61–134).  After the cache check (lines 81–84) the TOP's pixel array is
fetched and its channel layout normalized (lines 91–95): a four-channel array
drops alpha, and a single-channel array evaluates `np.repeat(pixels, 3,
axis=2)` — but `np` is a local name of `Extract`, first assigned by the
`import numpy as np` on line 108 inside the later downscaling branch, so at
line 95 it is unbound and the lookup raises (Python raises
`UnboundLocalError`, a subclass of `NameError`).  Returns the hex color list
together with the updated cache (line 129). -/
def tdExtract (st : ExtState) (top : TopInput) (use_cache : Bool) :
    Except PyError (List String) × List (String × List String) :=
  match (if use_cache then lookupCache st.cache (cacheKey top st) else Option.none) with
  | some hex => (.ok hex, st.cache)
  | Option.none =>
    if top.shape.length = 3 ∧ top.shape.getD 2 0 = 1 then
      (.error (.nameError "np"), st.cache)
    else
      match tdExtractRest st top with
      | .error e => (.error e, st.cache)
      | .ok hex => (.ok hex, (cacheKey top st, hex) :: st.cache)

deriving instance DecidableEq for Except

/-- A lowercase hexadecimal digit, as an independent check on the formatting
(used to state the `rgb_to_hex` claims, not by the model itself). -/
def isHexDigitChar (c : Char) : Bool :=
  (decide ('0' ≤ c) && decide (c ≤ '9')) || (decide ('a' ≤ c) && decide (c ≤ 'f'))

/-- Numeric value of a lowercase hexadecimal digit, as an independent decoder
(used to state the `rgb_to_hex` claims, not by the model itself). -/
def hexCharVal (c : Char) : ℕ :=
  if c ≤ '9' then c.toNat - 48 else c.toNat - 87

/-- The sum of the coverage percentages of an extraction result (0 when the
call failed or statistics were not requested). -/
def percentageSum (r : Except ExtractError (List Color × Option (List ColorStat))) : ℚ :=
  match r with
  | .ok (_, some ss) => (ss.map ColorStat.percentage).sum
  | _ => 0

/-- Fixture: pure red, as in the 2×2 scenario of spec §8. -/
def pureRed : Color := { r := 255, g := 0, b := 0 }

/-- Fixture: pure green, as in the 2×2 scenario of spec §8. -/
def pureGreen : Color := { r := 0, g := 255, b := 0 }

/-- Fixture: the 2×2 image of spec §8 whose top row is red and bottom row is
green. -/
def twoToneBuffer : PixelBuffer := [[pureRed, pureRed], [pureGreen, pureGreen]]

/-- Fixture: a solid-color 10×10 image (spec §8 scenario). -/
def solidBuffer : PixelBuffer :=
  List.replicate 10 (List.replicate 10 { r := 7, g := 7, b := 7 })

/-- Fixture: a ramp of distinct reds. -/
def rampColor (k : ℕ) : Color := { r := 20 * k, g := 0, b := 0 }

/-- Fixture: a 4×4 image with 12 distinct colors — five pixels of
`rampColor 0` and one pixel of each of `rampColor 1` … `rampColor 11`.  Its
per-color coverages are 31.25% and eleven times 6.25%, each of which rounds
upward to one decimal. -/
def sixteenPixelBuffer : PixelBuffer :=
  [[rampColor 0, rampColor 0, rampColor 0, rampColor 0],
   [rampColor 0, rampColor 1, rampColor 2, rampColor 3],
   [rampColor 4, rampColor 5, rampColor 6, rampColor 7],
   [rampColor 8, rampColor 9, rampColor 10, rampColor 11]]

/-- Fixture: the statistics the model computes for `twoToneBuffer` under
`kmeans` with 2 colors. -/
def twoToneStats : List ColorStat :=
  [{ hex := "#ff0000", percentage := 50, saturation := 1,
     spatialX := 1/2, spatialY := 1/4 },
   { hex := "#00ff00", percentage := 50, saturation := 1,
     spatialX := 1/2, spatialY := 3/4 }]

/-- Whether an extraction result is a success. -/
def isOkResult (r : Except ExtractError (List Color × Option (List ColorStat))) : Bool :=
  match r with
  | .ok _ => true
  | .error _ => false

/-- Fixture: a TouchDesigner extension state with default parameters
(touchdesigner_integration.py lines 30–34) and an empty cache. -/
def tdFreshState : ExtState :=
  { method := "lab", n_colors := 6, sort_by := "spatial-x", max_dimension := 64,
    cache := [] }

/-- Fixture: `plot_comparison` arguments with the pathological `dpi = 0`. -/
def plotArgsZeroDpi : PlotComparisonArgs :=
  { imgWidthPx := 800, imgHeightPx := 600, algorithms := [], dpi := 0 }

/-- Fixture: `plot_comparison` arguments at the source's default `dpi = 150`. -/
def plotArgsDefault : PlotComparisonArgs :=
  { imgWidthPx := 800, imgHeightPx := 600,
    algorithms := [("kmeans", [pureRed])], dpi := 150 }

/-- Fixture: a 2×2 single-channel (grayscale) TOP. -/
def tdGrayTop : TopInput :=
  { path := "/project1/moviefilein1", totalCooks := 3, shape := [2, 2, 1],
    values := [0, 1/4, 1/2, 1] }

end ColorExtract

namespace ColorExtract

theorem clamp255_le (x : ℤ) : clamp255 x ≤ 255 := by
  unfold clamp255
  have h1 : min 255 (max 0 x) ≤ (255 : ℤ) := min_le_left _ _
  have h2 : (0 : ℤ) ≤ min 255 (max 0 x) := le_min (by norm_num) (le_max_left _ _)
  omega

theorem hexDigit_spec : ∀ n : ℕ, n < 16 →
    isHexDigitChar (Nat.digitChar n) = true ∧ hexCharVal (Nat.digitChar n) = n := by
  decide

theorem hexByte_spec (n : ℕ) (h : n ≤ 255) :
    isHexDigitChar (Nat.digitChar (n / 16)) = true ∧
    isHexDigitChar (Nat.digitChar (n % 16)) = true ∧
    16 * hexCharVal (Nat.digitChar (n / 16)) + hexCharVal (Nat.digitChar (n % 16)) = n := by
  have hd : n / 16 < 16 := by omega
  have hm : n % 16 < 16 := Nat.mod_lt _ (by omega)
  obtain ⟨d1, d2⟩ := hexDigit_spec (n / 16) hd
  obtain ⟨m1, m2⟩ := hexDigit_spec (n % 16) hm
  refine ⟨d1, m1, ?_⟩
  rw [d2, m2]
  omega

/-- C4: for every color whose components are in [0,255] (and for out-of-range
components, after clamping to [0,255]), `rgb_to_hex` returns a string of
exactly 7 characters: a leading `#` followed by six zero-padded hexadecimal
digits encoding the red, green and blue components in that order (the
independent decoder `hexCharVal` recovers exactly the clamped components). -/
theorem rgb_to_hex_format (r g b : ℤ) :
    ∃ c1 c2 c3 c4 c5 c6 : Char,
      (rgb_to_hex r g b).data = ['#', c1, c2, c3, c4, c5, c6] ∧
      (rgb_to_hex r g b).length = 7 ∧
      (∀ c ∈ [c1, c2, c3, c4, c5, c6], isHexDigitChar c = true) ∧
      16 * hexCharVal c1 + hexCharVal c2 = clamp255 r ∧
      16 * hexCharVal c3 + hexCharVal c4 = clamp255 g ∧
      16 * hexCharVal c5 + hexCharVal c6 = clamp255 b := by
  obtain ⟨ra, rb, rc⟩ := hexByte_spec (clamp255 r) (clamp255_le r)
  obtain ⟨ga, gb, gc⟩ := hexByte_spec (clamp255 g) (clamp255_le g)
  obtain ⟨ba, bb, bc⟩ := hexByte_spec (clamp255 b) (clamp255_le b)
  refine ⟨_, _, _, _, _, _, ?_, ?_, ?_, rc, gc, bc⟩
  · simp [rgb_to_hex, hexByte]
  · simp [rgb_to_hex, hexByte, String.length]
  · intro c hc
    simp only [List.mem_cons, List.not_mem_nil, or_false] at hc
    rcases hc with h | h | h | h | h | h <;> subst h <;> assumption

theorem clampQ_of_mem (lo hi v : ℚ) (h1 : lo ≤ v) (h2 : v ≤ hi) : clampQ lo hi v = v := by
  unfold clampQ
  rw [max_eq_right h1, min_eq_right h2]

theorem normalize_unit_to_byte (v : ℚ) (h0 : 0 ≤ v) (h1 : v ≤ 1) :
    normalizeValue (0, 1) (0, 255) v = v * 255 := by
  show clampQ 0 255 (0 + (v - 0) / (1 - 0) * (255 - 0)) = v * 255
  have e : (0 : ℚ) + (v - 0) / (1 - 0) * (255 - 0) = v * 255 := by ring
  rw [e]
  exact clampQ_of_mem 0 255 (v * 255) (by positivity) (by nlinarith)

theorem normalize_byte_to_unit (v : ℚ) (h0 : 0 ≤ v) (h1 : v ≤ 255) :
    normalizeValue (0, 255) (0, 1) v = v / 255 := by
  show clampQ 0 1 (0 + (v - 0) / (255 - 0) * (1 - 0)) = v / 255
  have e : (0 : ℚ) + (v - 0) / (255 - 0) * (1 - 0) = v / 255 := by ring
  rw [e]
  refine clampQ_of_mem 0 1 (v / 255) (by positivity) ?_
  rw [div_le_one (by norm_num : (0 : ℚ) < 255)]
  exact h1

/-- C5: for every pixel array with values in [0,1], remapping with
`normalize_image_array` from (0,1) to (0,255) and then from (0,255) back to
(0,1) reconstructs the original values exactly (the two affine remaps compose
to the identity on in-range inputs; over the rationals the reconstruction is
exact, hence within any floating-point tolerance). -/
theorem normalize_image_array_round_trip (vs : List ℚ) (h : ∀ v ∈ vs, 0 ≤ v ∧ v ≤ 1) :
    ∃ ws : List ℚ,
      normalize_image_array vs (0, 1) (0, 255) = .ok ws ∧
      normalize_image_array ws (0, 255) (0, 1) = .ok vs := by
  refine ⟨vs.map (normalizeValue (0, 1) (0, 255)), ?_, ?_⟩
  · unfold normalize_image_array
    norm_num
  · unfold normalize_image_array
    norm_num
    have hcomp : ∀ v ∈ vs,
        (normalizeValue (0, 255) (0, 1) ∘ normalizeValue (0, 1) (0, 255)) v = id v := by
      intro v hv
      obtain ⟨h0, h1⟩ := h v hv
      have hf := normalize_unit_to_byte v h0 h1
      have hg := normalize_byte_to_unit (v * 255) (by positivity) (by nlinarith)
      simp only [Function.comp_apply, hf, hg, id_eq]
      field_simp
    rw [List.map_congr_left hcomp, List.map_id]

/-- C5 witness: the round trip at the concrete array [0, 1/2, 1]. -/
theorem normalize_image_array_round_trip_witness :
    ∃ ws : List ℚ,
      normalize_image_array [0, 1/2, 1] (0, 1) (0, 255) = .ok ws ∧
      normalize_image_array ws (0, 255) (0, 1) = .ok [0, 1/2, 1] :=
  normalize_image_array_round_trip [0, 1/2, 1] (by norm_num)

/-- C2: `extract_colors` is deterministic — two runs on the same pixel buffer
with the same configuration (method, n_colors, sort key, stats flag) return
identical results; the modelled core is a pure function of (pixels, config)
with no hidden mutable state. -/
theorem extract_colors_deterministic (buf1 buf2 : PixelBuffer) (m1 m2 : String)
    (n1 n2 : ℤ) (s1 s2 : String) (r1 r2 : Bool)
    (hb : buf1 = buf2) (hm : m1 = m2) (hn : n1 = n2) (hs : s1 = s2) (hr : r1 = r2) :
    extract_colors buf1 m1 n1 s1 r1 = extract_colors buf2 m2 n2 s2 r2 := by
  subst hb; subst hm; subst hn; subst hs; subst hr; rfl

/-- C2 witness: two runs on the 2×2 fixture agree. -/
theorem extract_colors_deterministic_witness :
    extract_colors twoToneBuffer "kmeans" 2 "none" true =
      extract_colors twoToneBuffer "kmeans" 2 "none" true :=
  extract_colors_deterministic twoToneBuffer twoToneBuffer "kmeans" "kmeans" 2 2
    "none" "none" true true rfl rfl rfl rfl rfl

/-- C9 counterexample: at `dpi = 0` the division at line 153 of
visualization.py raises `ZeroDivisionError` before the global name `plt` is
ever resolved at line 163, so "every call raises NameError" fails at this
explicit input. -/
theorem plot_comparison_zero_dpi_counterexample :
    plot_comparison plotArgsZeroDpi = .error .zeroDivisionError ∧
    plot_comparison plotArgsZeroDpi ≠ .error (.nameError "plt") := by
  constructor
  · with_unfolding_all rfl
  · with_unfolding_all decide

/-- C9 (amended): every call of `plot_comparison` with nonzero `dpi` fails
with a `NameError` before returning a figure: line 163 of visualization.py
references the global name `plt`, which is bound nowhere in the module (its
imports are lines 5–13), so the first statement that needs it raises; at
`dpi = 0` the call instead fails earlier with `ZeroDivisionError` at line
153, so in no case is a figure returned. -/
theorem plot_comparison_nameError (args : PlotComparisonArgs)
    (hdpi : args.dpi ≠ 0) :
    plot_comparison args = .error (.nameError "plt") := by
  have hq : ((args.dpi : ℚ)) ≠ 0 := Nat.cast_ne_zero.mpr hdpi
  unfold plot_comparison pyDiv
  simp only [if_neg hq]
  rfl

/-- C9 witness: a call at the source's default `dpi = 150` raises the
`NameError` for `plt`. -/
theorem plot_comparison_nameError_witness :
    plot_comparison plotArgsDefault = .error (.nameError "plt") :=
  plot_comparison_nameError plotArgsDefault (by decide)

/-- C10: `ColorExtractorExt.Extract` raises a `NameError` whenever the input
TOP's pixel array is 3-dimensional with exactly one channel and the cache
does not already hold the key: the grayscale branch (line 95) evaluates
`np.repeat(pixels, 3, axis=2)`, but `np` is a local name first assigned by
the `import numpy as np` on line 108, so it is unbound there (Python raises
`UnboundLocalError`, a subclass of `NameError`) and single-channel input is
never broadcast to RGB; the cache is left unchanged. -/
theorem tdExtract_grayscale_raises (st : ExtState) (top : TopInput) (use_cache : Bool)
    (hshape : top.shape.length = 3) (hchan : top.shape.getD 2 0 = 1)
    (hcache : lookupCache st.cache (cacheKey top st) = Option.none) :
    tdExtract st top use_cache = (.error (.nameError "np"), st.cache) := by
  have hlt : 2 < top.shape.length := by omega
  have helem : top.shape[2] = 1 := by
    rw [← List.getD_eq_getElem top.shape 0 hlt]
    exact hchan
  unfold tdExtract
  cases use_cache
  · simp [hshape, hchan, helem]
  · simp [hcache, hshape, hchan, helem]

/-- C10 witness: a fresh extension state and a 2×2 grayscale TOP. -/
theorem tdExtract_grayscale_raises_witness :
    tdExtract tdFreshState tdGrayTop true = (.error (.nameError "np"), []) :=
  tdExtract_grayscale_raises tdFreshState tdGrayTop true rfl rfl rfl


theorem filter_orderedInsert_keyEq {α β : Type} [LinearOrder β] [DecidableEq β]
    (f : α → β) (v : β) (a : α) (l : List α) (ha : f a = v) :
    (List.orderedInsert (leKey f) a l).filter (fun x => decide (f x = v)) =
      a :: l.filter (fun x => decide (f x = v)) := by
  induction l with
  | nil => simp [List.orderedInsert, ha]
  | cons b t ih =>
    by_cases hr : leKey f a b
    · simp [List.orderedInsert, hr, ha]
    · have hblt : f b < f a := not_le.mp hr
      have hb : ¬ (f b = v) := by rw [← ha]; exact ne_of_lt hblt
      simp [List.orderedInsert, hr, hb, ih]

theorem filter_orderedInsert_keyNe {α β : Type} [LinearOrder β] [DecidableEq β]
    (f : α → β) (v : β) (a : α) (l : List α) (ha : ¬ (f a = v)) :
    (List.orderedInsert (leKey f) a l).filter (fun x => decide (f x = v)) =
      l.filter (fun x => decide (f x = v)) := by
  induction l with
  | nil => simp [List.orderedInsert, ha]
  | cons b t ih =>
    by_cases hr : leKey f a b
    · simp [List.orderedInsert, hr, ha]
    · simp [List.orderedInsert, hr, List.filter_cons, ih]

theorem filter_insertionSort_key {α β : Type} [LinearOrder β] [DecidableEq β]
    (f : α → β) (v : β) (l : List α) :
    (List.insertionSort (leKey f) l).filter (fun x => decide (f x = v)) =
      l.filter (fun x => decide (f x = v)) := by
  induction l with
  | nil => rfl
  | cons a t ih =>
    by_cases ha : f a = v
    · rw [List.insertionSort, filter_orderedInsert_keyEq f v a _ ha, ih, List.filter_cons]
      simp [ha]
    · rw [List.insertionSort, filter_orderedInsert_keyNe f v a _ ha, ih, List.filter_cons]
      simp [ha]

/-- C6: the Sorter with key `none` returns the colors and stats in exactly the
extractor-native order; with key `spatial-x` it returns a permutation of the
(color, stat) pairs whose mean-x values are non-decreasing, and it is stable:
for every mean-x value, the pairs carrying that value appear in the output in
exactly their prior relative order. -/
theorem sorter_none_and_spatialx (cs : List Color) (ss : List ColorStat) :
    sortColors SortKey.none cs ss = (cs, ss) ∧
    ((sortColors SortKey.spatialX cs ss).1.zip (sortColors SortKey.spatialX cs ss).2).Perm
        (cs.zip ss) ∧
    List.Chain' (fun a b => a ≤ b)
      (((sortColors SortKey.spatialX cs ss).2).map ColorStat.spatialX) ∧
    (∀ v : ℚ,
      ((sortColors SortKey.spatialX cs ss).1.zip
          (sortColors SortKey.spatialX cs ss).2).filter
          (fun p => decide (p.2.spatialX = v)) =
        (cs.zip ss).filter (fun p => decide (p.2.spatialX = v))) := by
  refine ⟨rfl, ?_, ?_, ?_⟩
  · simp only [sortColors]
    rw [List.zip_unzip]
    exact List.perm_insertionSort _ _
  · simp only [sortColors]
    have hs := List.sorted_insertionSort
      (leKey (fun p : Color × ColorStat => p.2.spatialX)) (cs.zip ss)
    rw [List.unzip_snd, List.map_map]
    exact List.Pairwise.chain' (List.pairwise_map.mpr hs)
  · intro v
    simp only [sortColors]
    rw [List.zip_unzip]
    exact filter_insertionSort_key _ v _

/-- C7: `extract_colors` fails with a `ConfigurationError`, uniformly in the
pixel buffer (hence before any extraction), whenever the method name is
outside the closed set, the sort key is unknown, or `n_colors` is not a
positive integer. -/
theorem extract_colors_config_validation (method sort_by : String) (n_colors : ℤ)
    (return_stats : Bool)
    (h : parseMethod method = Option.none ∨ parseSortKey sort_by = Option.none ∨
      n_colors ≤ 0) :
    ∃ msg : String, ∀ buf : PixelBuffer,
      extract_colors buf method n_colors sort_by return_stats =
        .error (.configurationError msg) := by
  cases hm : parseMethod method with
  | none =>
    exact ⟨"Unknown method: " ++ method, fun buf => by simp [extract_colors, hm]⟩
  | some m =>
    cases hk : parseSortKey sort_by with
    | none =>
      exact ⟨"Unknown sort key: " ++ sort_by, fun buf => by simp [extract_colors, hm, hk]⟩
    | some key =>
      have hn : n_colors ≤ 0 := by
        rcases h with h | h | h
        · rw [hm] at h; exact absurd h (by simp)
        · rw [hk] at h; exact absurd h (by simp)
        · exact h
      exact ⟨"n_colors must be a positive integer",
        fun buf => by simp [extract_colors, hm, hk, hn]⟩

/-- C7 witness: `method='unknown'` raises `ConfigurationError` on every
buffer. -/
theorem extract_colors_config_validation_witness :
    ∃ msg : String, ∀ buf : PixelBuffer,
      extract_colors buf "unknown" 5 "none" false =
        .error (.configurationError msg) :=
  extract_colors_config_validation "unknown" "none" 5 false (Or.inl rfl)

/-- C8: the 2×2 image with a red top row and a green bottom row, extracted
with `method='kmeans', n_colors=2` and statistics, returns exactly the colors
(255,0,0) and (0,255,0) (here in this order), each with a coverage percentage
of 50.0. -/
theorem extract_colors_two_tone_scenario :
    extract_colors twoToneBuffer "kmeans" 2 "none" true =
      .ok ([pureRed, pureGreen],
        some [{ hex := "#ff0000", percentage := 50, saturation := 1,
                spatialX := 1/2, spatialY := 1/4 },
              { hex := "#00ff00", percentage := 50, saturation := 1,
                spatialX := 1/2, spatialY := 3/4 }]) := by
  with_unfolding_all decide


theorem nodup_append_singleton {α : Type} {l : List α} {a : α}
    (h : l.Nodup) (ha : a ∉ l) : (l ++ [a]).Nodup := by
  rw [List.nodup_append]
  refine ⟨h, List.nodup_singleton a, ?_⟩
  intro x hx hxa
  simp only [List.mem_singleton] at hxa
  subst hxa
  exact ha hx

theorem bumpColor_keys (acc : List (Color × ℕ)) (c : Color) :
    (bumpColor acc c).map Prod.fst =
      if c ∈ acc.map Prod.fst then acc.map Prod.fst
      else acc.map Prod.fst ++ [c] := by
  induction acc with
  | nil => simp [bumpColor]
  | cons hd t ih =>
    obtain ⟨d, k⟩ := hd
    by_cases hdc : d = c
    · subst hdc
      simp [bumpColor]
    · have hcd : ¬ c = d := fun hx => hdc hx.symm
      by_cases hct : c ∈ t.map Prod.fst
      · simp [bumpColor, hdc, hcd, hct, ih]
      · simp [bumpColor, hdc, hcd, hct, ih]

theorem foldl_bumpColor_keys (ps : List Color) :
    ∀ acc : List (Color × ℕ),
      ((acc.map Prod.fst).Nodup → ((ps.foldl bumpColor acc).map Prod.fst).Nodup) ∧
      (∀ x, x ∈ (ps.foldl bumpColor acc).map Prod.fst ↔
        x ∈ acc.map Prod.fst ∨ x ∈ ps) := by
  induction ps with
  | nil =>
    intro acc
    exact ⟨id, fun x => by simp⟩
  | cons p t ih =>
    intro acc
    constructor
    · intro hnd
      refine (ih (bumpColor acc p)).1 ?_
      rw [bumpColor_keys]
      by_cases hm : p ∈ acc.map Prod.fst
      · simpa [hm] using hnd
      · rw [if_neg hm]
        exact nodup_append_singleton hnd hm
    · intro x
      rw [List.foldl_cons, (ih (bumpColor acc p)).2 x, bumpColor_keys]
      by_cases hm : p ∈ acc.map Prod.fst
      · rw [if_pos hm]
        simp only [List.mem_cons]
        constructor
        · rintro (hx | hx)
          · exact Or.inl hx
          · exact Or.inr (Or.inr hx)
        · rintro (hx | hx | hx)
          · exact Or.inl hx
          · subst hx; exact Or.inl hm
          · exact Or.inr hx
      · rw [if_neg hm]
        simp only [List.mem_append, List.mem_singleton, List.mem_cons]
        tauto

theorem colorCounts_keys_nodup (ps : List Color) :
    ((colorCounts ps).map Prod.fst).Nodup :=
  (foldl_bumpColor_keys ps []).1 (by simp)

theorem mem_colorCounts_keys (ps : List Color) (x : Color) :
    x ∈ (colorCounts ps).map Prod.fst ↔ x ∈ ps := by
  have h := (foldl_bumpColor_keys ps []).2 x
  simpa [colorCounts] using h

theorem colorCounts_keys_perm_dedup (ps : List Color) :
    ((colorCounts ps).map Prod.fst).Perm ps.dedup := by
  rw [List.perm_ext_iff_of_nodup (colorCounts_keys_nodup ps) (List.nodup_dedup ps)]
  intro a
  rw [mem_colorCounts_keys, List.mem_dedup]

theorem colorCounts_length (ps : List Color) :
    (colorCounts ps).length = ps.dedup.length := by
  have h := (colorCounts_keys_perm_dedup ps).length_eq
  simpa using h

theorem distinctByCount_perm_keys (ps : List Color) :
    (distinctByCount ps).Perm ((colorCounts ps).map Prod.fst) :=
  (List.perm_insertionSort (geKey Prod.snd) (colorCounts ps)).map Prod.fst

theorem distinctByCount_length_counts (ps : List Color) :
    (distinctByCount ps).length = (colorCounts ps).length := by
  rw [(distinctByCount_perm_keys ps).length_eq, List.length_map]

theorem distinctByCount_length (ps : List Color) :
    (distinctByCount ps).length = ps.dedup.length := by
  rw [distinctByCount_length_counts, colorCounts_length]

theorem distinctByCount_nodup (ps : List Color) : (distinctByCount ps).Nodup :=
  ((distinctByCount_perm_keys ps).nodup_iff).mpr (colorCounts_keys_nodup ps)

theorem mem_distinctByCount (ps : List Color) (x : Color) :
    x ∈ distinctByCount ps ↔ x ∈ ps := by
  rw [(distinctByCount_perm_keys ps).mem_iff, mem_colorCounts_keys]

theorem topColorsByCount_length (ps : List Color) (n : ℕ) :
    (topColorsByCount ps n).length = min n (colorCounts ps).length := by
  rw [topColorsByCount, List.length_take, distinctByCount_length_counts]

theorem lloydStep_length (dist : Color → Color → ℤ) (ps cs : List Color) :
    (lloydStep dist ps cs).length = cs.length := by
  simp [lloydStep]

theorem lloydIterate_length (dist : Color → Color → ℤ) (ps : List Color) (k : ℕ) :
    ∀ cs : List Color, ((lloydStep dist ps)^[k] cs).length = cs.length := by
  induction k with
  | zero => intro cs; rfl
  | succ k ih =>
    intro cs
    rw [Function.iterate_succ_apply, ih, lloydStep_length]

theorem orderByAssigned_length (dist : Color → Color → ℤ) (ps cs : List Color) :
    (orderByAssigned dist ps cs).length = cs.length := by
  unfold orderByAssigned
  rw [List.length_map, (List.perm_insertionSort _ _).length_eq, List.length_map,
    List.enum_length]

theorem kmeansCore_length (dist : Color → Color → ℤ) (ps : List Color) (n : ℕ) :
    (kmeansCore dist ps n).length = min n (colorCounts ps).length := by
  unfold kmeansCore
  rw [orderByAssigned_length, lloydIterate_length, topColorsByCount_length]

theorem aggressiveExtract_length (ps : List Color) (n : ℕ) :
    (aggressiveExtract ps n).length =
      min n (colorCounts (ps.map quantizeColor)).length := by
  unfold aggressiveExtract
  rw [List.length_map, List.length_take, (List.perm_insertionSort _ _).length_eq]

theorem runExtractor_length_le (m : Method) (ps : List Color) (n : ℕ) :
    (runExtractor m ps n).length ≤ n := by
  unfold runExtractor
  by_cases h : (colorCounts ps).length ≤ n
  · rw [if_pos h, distinctByCount_length_counts]
    exact h
  · rw [if_neg h]
    cases m with
    | kmeans =>
      show (kmeansCore rgbDist2 ps n).length ≤ n
      rw [kmeansCore_length]
      exact min_le_left _ _
    | aggressive =>
      show (aggressiveExtract ps n).length ≤ n
      rw [aggressiveExtract_length]
      exact min_le_left _ _
    | vibrant =>
      show (vibrantExtract ps n).length ≤ n
      unfold vibrantExtract
      split
      · rw [kmeansCore_length]; exact min_le_left _ _
      · rw [kmeansCore_length]; exact min_le_left _ _
    | lab =>
      show (kmeansCore labDist2 ps n).length ≤ n
      rw [kmeansCore_length]
      exact min_le_left _ _
    | multistage =>
      show (kmeansCore labDist2 _ n).length ≤ n
      rw [kmeansCore_length]
      exact min_le_left _ _

theorem runExtractor_distinct_le (m : Method) (ps : List Color) (n : ℕ)
    (h : ps.dedup.length ≤ n) : runExtractor m ps n = distinctByCount ps := by
  unfold runExtractor
  rw [if_pos]
  rw [colorCounts_length]
  exact h

theorem colorCounts_length_pos (ps : List Color) (h : ps ≠ []) :
    0 < (colorCounts ps).length := by
  rw [colorCounts_length, List.length_pos]
  intro hd
  exact h ((List.dedup_eq_nil ps).mp hd)

theorem kmeansCore_length_pos (dist : Color → Color → ℤ) (ps : List Color) (n : ℕ)
    (hp : ps ≠ []) (hn : 0 < n) : 0 < (kmeansCore dist ps n).length := by
  rw [kmeansCore_length]
  exact lt_min hn (colorCounts_length_pos ps hp)

theorem runExtractor_length_pos (m : Method) (ps : List Color) (n : ℕ)
    (hp : ps ≠ []) (hn : 0 < n) : 0 < (runExtractor m ps n).length := by
  unfold runExtractor
  by_cases h : (colorCounts ps).length ≤ n
  · rw [if_pos h, distinctByCount_length_counts]
    exact colorCounts_length_pos ps hp
  · rw [if_neg h]
    cases m with
    | kmeans => exact kmeansCore_length_pos _ _ _ hp hn
    | aggressive =>
      show 0 < (aggressiveExtract ps n).length
      rw [aggressiveExtract_length]
      refine lt_min hn (colorCounts_length_pos _ ?_)
      simp [hp]
    | vibrant =>
      show 0 < (vibrantExtract ps n).length
      unfold vibrantExtract
      split
      · exact kmeansCore_length_pos _ _ _ hp hn
      · next hcond =>
        rw [kmeansCore_length]
        exact lt_min hn (lt_of_lt_of_le hn (not_lt.mp hcond))
    | lab => exact kmeansCore_length_pos _ _ _ hp hn
    | multistage =>
      refine kmeansCore_length_pos _ _ _ ?_ hn
      simp [hp]

theorem unzip_insertionSort_fst_perm
    (r : (Color × ColorStat) → (Color × ColorStat) → Prop) [DecidableRel r]
    (cs : List Color) (ss : List ColorStat) (h : cs.length = ss.length) :
    ((List.insertionSort r (cs.zip ss)).unzip.1).Perm cs := by
  rw [List.unzip_fst]
  have h1 := (List.perm_insertionSort r (cs.zip ss)).map Prod.fst
  rwa [List.map_fst_zip cs ss (le_of_eq h)] at h1

theorem unzip_insertionSort_snd_perm
    (r : (Color × ColorStat) → (Color × ColorStat) → Prop) [DecidableRel r]
    (cs : List Color) (ss : List ColorStat) (h : cs.length = ss.length) :
    ((List.insertionSort r (cs.zip ss)).unzip.2).Perm ss := by
  rw [List.unzip_snd]
  have h1 := (List.perm_insertionSort r (cs.zip ss)).map Prod.snd
  rwa [List.map_snd_zip cs ss (ge_of_eq h)] at h1

theorem sortColors_fst_perm (key : SortKey) (cs : List Color) (ss : List ColorStat)
    (h : cs.length = ss.length) : ((sortColors key cs ss).1).Perm cs := by
  cases key with
  | none => exact List.Perm.refl cs
  | spatialX => exact unzip_insertionSort_fst_perm _ cs ss h
  | spatialY => exact unzip_insertionSort_fst_perm _ cs ss h
  | frequency => exact unzip_insertionSort_fst_perm _ cs ss h

theorem sortColors_snd_perm (key : SortKey) (cs : List Color) (ss : List ColorStat)
    (h : cs.length = ss.length) : ((sortColors key cs ss).2).Perm ss := by
  cases key with
  | none => exact List.Perm.refl ss
  | spatialX => exact unzip_insertionSort_snd_perm _ cs ss h
  | spatialY => exact unzip_insertionSort_snd_perm _ cs ss h
  | frequency => exact unzip_insertionSort_snd_perm _ cs ss h

theorem collectStats_length (dist : Color → Color → ℤ) (buf : PixelBuffer)
    (colors : List Color) : (collectStats dist buf colors).length = colors.length := by
  simp [collectStats]

theorem extract_colors_ok_inv (buf : PixelBuffer) (method : String) (n_colors : ℤ)
    (sort_by : String) (return_stats : Bool) (cs : List Color)
    (os : Option (List ColorStat))
    (h : extract_colors buf method n_colors sort_by return_stats = .ok (cs, os)) :
    ∃ m key, parseMethod method = some m ∧ parseSortKey sort_by = some key ∧
      0 < n_colors ∧
      cs.Perm (runExtractor m (allPixels buf) n_colors.toNat) ∧
      (∀ ss, os = some ss →
        ss.Perm (collectStats (statDist m) buf
          (runExtractor m (allPixels buf) n_colors.toNat))) := by
  unfold extract_colors at h
  cases hm : parseMethod method with
  | none => rw [hm] at h; exact absurd h (by simp)
  | some m =>
    rw [hm] at h
    dsimp only at h
    cases hk : parseSortKey sort_by with
    | none => rw [hk] at h; exact absurd h (by simp)
    | some key =>
      rw [hk] at h
      dsimp only at h
      by_cases hn : n_colors ≤ 0
      · rw [if_pos hn] at h; exact absurd h (by simp)
      · rw [if_neg hn] at h
        have hlen : (runExtractor m (allPixels buf) n_colors.toNat).length =
            (collectStats (statDist m) buf
              (runExtractor m (allPixels buf) n_colors.toNat)).length := by
          rw [collectStats_length]
        refine ⟨m, key, rfl, rfl, by omega, ?_, ?_⟩
        · cases return_stats with
          | true =>
            rw [if_pos rfl] at h
            simp only [Except.ok.injEq, Prod.mk.injEq] at h
            rw [← h.1]
            exact sortColors_fst_perm key _ _ hlen
          | false =>
            rw [if_neg (by simp)] at h
            cases key with
            | none =>
              simp only [Except.ok.injEq, Prod.mk.injEq] at h
              rw [← h.1]
            | spatialX => exact absurd h (by simp)
            | spatialY => exact absurd h (by simp)
            | frequency => exact absurd h (by simp)
        · intro ss hss
          cases return_stats with
          | true =>
            rw [if_pos rfl] at h
            simp only [Except.ok.injEq, Prod.mk.injEq] at h
            rw [← h.2, Option.some.injEq] at hss
            rw [← hss]
            exact sortColors_snd_perm key _ _ hlen
          | false =>
            rw [if_neg (by simp)] at h
            cases key with
            | none =>
              simp only [Except.ok.injEq, Prod.mk.injEq] at h
              rw [← h.2] at hss
              exact absurd hss (by simp)
            | spatialX => exact absurd h (by simp)
            | spatialY => exact absurd h (by simp)
            | frequency => exact absurd h (by simp)

/-- C1: whenever `extract_colors` succeeds (valid configuration: known method,
known sort key, positive `n_colors`), the returned color list has length at
most `n_colors`; and when the image holds fewer distinct colors than
`n_colors`, the result has exactly that many entries, without duplicates and
without synthetic entries (every returned color occurs in the image). -/
theorem extract_colors_length_contract (buf : PixelBuffer) (method : String)
    (n_colors : ℤ) (sort_by : String) (return_stats : Bool) (cs : List Color)
    (os : Option (List ColorStat))
    (h : extract_colors buf method n_colors sort_by return_stats = .ok (cs, os)) :
    cs.length ≤ n_colors.toNat ∧
    ((allPixels buf).dedup.length < n_colors.toNat →
      cs.length = (allPixels buf).dedup.length ∧ cs.Nodup ∧
        ∀ c ∈ cs, c ∈ allPixels buf) := by
  obtain ⟨m, key, hm, hk, hn, hperm, hstats⟩ :=
    extract_colors_ok_inv buf method n_colors sort_by return_stats cs os h
  constructor
  · rw [hperm.length_eq]
    exact runExtractor_length_le m _ _
  · intro hlt
    have heq := runExtractor_distinct_le m (allPixels buf) n_colors.toNat (le_of_lt hlt)
    rw [heq] at hperm
    refine ⟨by rw [hperm.length_eq, distinctByCount_length], hperm.nodup_iff.mpr
      (distinctByCount_nodup _), fun c hc => ?_⟩
    exact (mem_distinctByCount _ c).mp (hperm.mem_iff.mp hc)

/-- C1 witness: the solid-color 10×10 image with `n_colors=5` (spec §8)
returns exactly one color and satisfies the length contract. -/
theorem extract_colors_length_contract_witness :
    ([({ r := 7, g := 7, b := 7 } : Color)].length ≤ (5 : ℤ).toNat) ∧
    ((allPixels solidBuffer).dedup.length < (5 : ℤ).toNat →
      [({ r := 7, g := 7, b := 7 } : Color)].length =
          (allPixels solidBuffer).dedup.length ∧
        [({ r := 7, g := 7, b := 7 } : Color)].Nodup ∧
        ∀ c ∈ [({ r := 7, g := 7, b := 7 } : Color)], c ∈ allPixels solidBuffer) :=
  extract_colors_length_contract solidBuffer "kmeans" 5 "none" false
    [{ r := 7, g := 7, b := 7 }] Option.none (by with_unfolding_all decide)


theorem round1_close (q : ℚ) : |round1 q - q| ≤ 1 / 20 := by
  unfold round1
  have h := abs_sub_round (q * 10)
  rw [abs_sub_comm] at h
  have e : ((round (q * 10) : ℤ) : ℚ) / 10 - q =
      (((round (q * 10) : ℤ) : ℚ) - q * 10) / 10 := by ring
  rw [e, abs_div, abs_of_pos (by norm_num : (0 : ℚ) < 10)]
  linarith

theorem nearestIndex_lt_length (dist : Color → Color → ℤ) (cs : List Color)
    (p : Color) (h : cs ≠ []) : nearestIndex dist cs p < cs.length := by
  unfold nearestIndex
  cases harg : cs.enum.argmin (fun ic => dist ic.2 p) with
  | none =>
    exfalso
    rw [List.argmin_eq_none] at harg
    have hlen : cs.enum.length = cs.length := List.enum_length
    rw [harg] at hlen
    exact h (List.length_eq_zero.mp hlen.symm)
  | some ic =>
    obtain ⟨i, c⟩ := ic
    have hmem := List.argmin_mem harg
    rw [List.enum_eq_zip_range] at hmem
    exact List.mem_range.mp (List.of_mem_zip hmem).1

theorem sum_length_filter_eq {α : Type} (l : List α) (g : α → ℕ) (k : ℕ)
    (h : ∀ a ∈ l, g a < k) :
    ∑ i ∈ Finset.range k, (l.filter (fun a => g a == i)).length = l.length := by
  induction l with
  | nil => simp
  | cons a t ih =>
    have hk : g a < k := h a (List.mem_cons_self a t)
    have ht : ∀ b ∈ t, g b < k := fun b hb => h b (List.mem_cons_of_mem a hb)
    have e : ∀ i, (List.filter (fun x => g x == i) (a :: t)).length =
        (if i = g a then 1 else 0) + (t.filter (fun x => g x == i)).length := by
      intro i
      rw [List.filter_cons]
      by_cases hg : g a = i
      · rw [if_pos (by simp [hg]), if_pos hg.symm, List.length_cons]
        omega
      · rw [if_neg (by simp [hg]), if_neg (fun hx => hg hx.symm)]
        omega
    calc ∑ i ∈ Finset.range k, (List.filter (fun x => g x == i) (a :: t)).length
        = ∑ i ∈ Finset.range k,
            ((if i = g a then 1 else 0) + (t.filter (fun x => g x == i)).length) :=
          Finset.sum_congr rfl (fun i _ => e i)
      _ = (∑ i ∈ Finset.range k, if i = g a then 1 else 0) +
            ∑ i ∈ Finset.range k, (t.filter (fun x => g x == i)).length :=
          Finset.sum_add_distrib
      _ = 1 + t.length := by
          rw [ih ht, Finset.sum_ite_eq' (Finset.range k) (g a) (fun _ => 1),
            if_pos (Finset.mem_range.mpr hk)]
      _ = (a :: t).length := by rw [List.length_cons]; omega

theorem map_proj_enum_map {α β γ : Type} (l : List α) (g : ℕ × α → β) (proj : β → γ)
    (f : ℕ → γ) (hfg : ∀ p : ℕ × α, proj (g p) = f p.1) :
    ((l.enum.map g).map proj) = (List.range l.length).map f := by
  rw [List.map_map]
  have h1 : ∀ p ∈ l.enum, (proj ∘ g) p = (f ∘ Prod.fst) p := fun p _ => hfg p
  rw [List.map_congr_left h1, ← List.map_map, List.enum_map_fst]

theorem collectStats_map_percentage (dist : Color → Color → ℤ) (buf : PixelBuffer)
    (colors : List Color) :
    (collectStats dist buf colors).map ColorStat.percentage =
      (List.range colors.length).map (fun i =>
        round1 (((assignedPts dist buf colors i).length : ℚ) * 100 /
          ((pixelPoints buf).length : ℚ))) :=
  map_proj_enum_map colors _ ColorStat.percentage _ (fun _ => rfl)

theorem pixelPoints_length (buf : PixelBuffer) :
    (pixelPoints buf).length = (allPixels buf).length := by
  unfold pixelPoints allPixels
  rw [List.length_flatten, List.length_flatten, List.map_map]
  have h1 : ∀ yr ∈ buf.enum, (List.length ∘ (fun yrow : ℕ × List Color =>
      yrow.2.enum.map (fun xc => (xc.1, yrow.1, xc.2)))) yr =
      (List.length ∘ Prod.snd) yr := by
    intro yr _
    simp [List.enum_length]
  rw [List.map_congr_left h1, ← List.map_map, List.enum_map_snd]

theorem sum_round1_percentages (T k : ℕ) (cnt : ℕ → ℕ) (hT : 0 < T)
    (hsum : ∑ i ∈ Finset.range k, cnt i = T) :
    |(∑ i ∈ Finset.range k, round1 ((cnt i : ℚ) * 100 / (T : ℚ))) - 100| ≤
      (k : ℚ) / 20 := by
  have hT' : ((T : ℚ)) ≠ 0 := by
    exact_mod_cast Nat.pos_iff_ne_zero.mp hT
  have hq : ∑ i ∈ Finset.range k, ((cnt i : ℚ) * 100 / (T : ℚ)) = 100 := by
    rw [← Finset.sum_div, ← Finset.sum_mul]
    have hc : (∑ i ∈ Finset.range k, (cnt i : ℚ)) = (T : ℚ) := by
      rw [← Nat.cast_sum, hsum]
    rw [hc]
    field_simp
  calc |(∑ i ∈ Finset.range k, round1 ((cnt i : ℚ) * 100 / (T : ℚ))) - 100|
      = |∑ i ∈ Finset.range k,
          (round1 ((cnt i : ℚ) * 100 / (T : ℚ)) - (cnt i : ℚ) * 100 / (T : ℚ))| := by
        rw [Finset.sum_sub_distrib, hq]
    _ ≤ ∑ i ∈ Finset.range k,
          |round1 ((cnt i : ℚ) * 100 / (T : ℚ)) - (cnt i : ℚ) * 100 / (T : ℚ)| :=
        Finset.abs_sum_le_sum_abs _ _
    _ ≤ ∑ i ∈ Finset.range k, (1 : ℚ) / 20 :=
        Finset.sum_le_sum (fun i _ => round1_close _)
    _ = (k : ℚ) / 20 := by
        rw [Finset.sum_const, Finset.card_range, nsmul_eq_mul]
        ring


/-- C3 (amended): for every extraction call with statistics on a nonempty
image, each returned percentage is of the form (assigned pixel count / total
pixel count) × 100 rounded to one decimal; the sum of the percentages differs
from 100 by at most 0.05 × (number of returned stats); in particular it lies
within ±0.5 of 100 whenever at most ten stats are returned.  (The original
±0.5 bound for arbitrarily many colors fails, see the counterexample.) -/
theorem stats_percentage_formula_and_sum (buf : PixelBuffer) (method sort_by : String)
    (n_colors : ℤ) (cs : List Color) (ss : List ColorStat)
    (h : extract_colors buf method n_colors sort_by true = .ok (cs, some ss))
    (hne : allPixels buf ≠ []) :
    (∀ stat ∈ ss, ∃ cnt : ℕ, cnt ≤ (pixelPoints buf).length ∧
      stat.percentage = round1 ((cnt : ℚ) * 100 / ((pixelPoints buf).length : ℚ))) ∧
    |(ss.map ColorStat.percentage).sum - 100| ≤ (ss.length : ℚ) / 20 ∧
    (ss.length ≤ 10 → |(ss.map ColorStat.percentage).sum - 100| ≤ 1 / 2) := by
  obtain ⟨m, key, hm, hk, hn, hcsperm, hstats⟩ :=
    extract_colors_ok_inv buf method n_colors sort_by true cs (some ss) h
  have hssperm := hstats ss rfl
  have hT : 0 < (pixelPoints buf).length := by
    rw [pixelPoints_length buf, List.length_pos]
    exact hne
  have hcolpos : 0 < (runExtractor m (allPixels buf) n_colors.toNat).length :=
    runExtractor_length_pos m _ _ hne (by omega)
  have hcolne : runExtractor m (allPixels buf) n_colors.toNat ≠ [] :=
    List.length_pos.mp hcolpos
  have hcount := sum_length_filter_eq (pixelPoints buf)
    (fun p => nearestIndex (statDist m)
      (runExtractor m (allPixels buf) n_colors.toNat) p.2.2)
    (runExtractor m (allPixels buf) n_colors.toNat).length
    (fun p _ => nearestIndex_lt_length _ _ _ hcolne)
  have hlen : ss.length = (runExtractor m (allPixels buf) n_colors.toNat).length := by
    rw [hssperm.length_eq, collectStats_length]
  have hsum2 : (ss.map ColorStat.percentage).sum =
      ∑ i ∈ Finset.range (runExtractor m (allPixels buf) n_colors.toNat).length,
        round1 (((assignedPts (statDist m) buf
            (runExtractor m (allPixels buf) n_colors.toNat) i).length : ℚ) * 100 /
          ((pixelPoints buf).length : ℚ)) := by
    rw [(hssperm.map ColorStat.percentage).sum_eq, collectStats_map_percentage]
    rfl
  have hbound : |(ss.map ColorStat.percentage).sum - 100| ≤ (ss.length : ℚ) / 20 := by
    have hb := sum_round1_percentages (pixelPoints buf).length
      (runExtractor m (allPixels buf) n_colors.toNat).length
      (fun i => (assignedPts (statDist m) buf
        (runExtractor m (allPixels buf) n_colors.toNat) i).length) hT hcount
    rw [hsum2, hlen]
    exact hb
  refine ⟨?_, hbound, fun hle => le_trans hbound ?_⟩
  · intro stat hstat
    have hmem : stat ∈ collectStats (statDist m) buf
        (runExtractor m (allPixels buf) n_colors.toNat) := hssperm.subset hstat
    unfold collectStats at hmem
    rw [List.mem_map] at hmem
    obtain ⟨ic, _, hicEq⟩ := hmem
    exact ⟨(assignedPts (statDist m) buf
        (runExtractor m (allPixels buf) n_colors.toNat) ic.1).length,
      List.length_filter_le _ _, by rw [← hicEq]⟩
  · have hc : ((ss.length : ℚ)) ≤ 10 := by exact_mod_cast hle
    linarith

/-- C3 witness (amended claim): the 2×2 two-tone scenario satisfies the
percentage formula and both sum bounds. -/
theorem stats_percentage_formula_and_sum_witness :
    (∀ stat ∈ twoToneStats, ∃ cnt : ℕ, cnt ≤ (pixelPoints twoToneBuffer).length ∧
      stat.percentage =
        round1 ((cnt : ℚ) * 100 / ((pixelPoints twoToneBuffer).length : ℚ))) ∧
    |(twoToneStats.map ColorStat.percentage).sum - 100| ≤
      ((twoToneStats.length : ℚ)) / 20 ∧
    (twoToneStats.length ≤ 10 →
      |(twoToneStats.map ColorStat.percentage).sum - 100| ≤ 1 / 2) :=
  stats_percentage_formula_and_sum twoToneBuffer "kmeans" "none" 2
    [pureRed, pureGreen] twoToneStats (by with_unfolding_all decide) (by decide)

set_option maxRecDepth 100000 in
/-- C3 counterexample: on the 4×4 image with 12 distinct colors, extraction
with `n_colors=12` succeeds, yet the returned percentages (31.3 and eleven
times 6.3) sum to 100.6 = 503/5, which is not within ±0.5 of 100 — the
claimed bound fails once more than ten colors are returned. -/
theorem stats_percentage_sum_counterexample :
    isOkResult (extract_colors sixteenPixelBuffer "kmeans" 12 "none" true) = true ∧
    percentageSum (extract_colors sixteenPixelBuffer "kmeans" 12 "none" true) =
      503 / 5 ∧
    ¬ |percentageSum (extract_colors sixteenPixelBuffer "kmeans" 12 "none" true) -
        100| ≤ 1 / 2 := by
  have he : percentageSum (extract_colors sixteenPixelBuffer "kmeans" 12 "none" true) =
      503 / 5 := by with_unfolding_all decide
  refine ⟨by with_unfolding_all decide, he, ?_⟩
  rw [he, show (503 : ℚ) / 5 - 100 = 3 / 5 by norm_num,
    abs_of_nonneg (by norm_num : (0 : ℚ) ≤ 3 / 5)]
  norm_num

end ColorExtract
